import Mathlib

/-!
Verification development for the flag-binding engine in `flag.go` of the
`cli` package.  The Go source is shallowly embedded: Go machine integers
become `Int`/`Nat` with explicit two's-complement bounds, `reflect`-driven
value mutation becomes explicit state passing over a `Value` type, Go's
fallible calls become `Except`/`Option` results, and the environment
(`os.Getenv`) and external collaborators (the arithmetic-expression
evaluator and the interactive prompt primitives) are explicit function
parameters.  Float kinds and the usage renderer are outside the claims and
are not modelled.
-/

namespace CliFlag

/-- The `reflect.Kind`s of configuration fields handled by `setWithProperType`
in flag.go (float kinds and the open `Decoder` fallback are not exercised by
any claim and are omitted; `slice`/`map` carry their element kinds the way the
reflected `reflect.Type` does). -/
inductive Kind where
  | bool
  | string
  | int
  | int8
  | int16
  | int32
  | int64
  | uint
  | uint8
  | uint16
  | uint32
  | uint64
  | slice (elem : Kind)
  | map (key val : Kind)
deriving DecidableEq, Repr

/-- The distinct error outcomes produced by the coercion code paths of
flag.go (each constructor corresponds to one `errors.New`/`fmt.Errorf`
site; `typeMismatch` carries the offending raw value and the kind name used
in the message, matching `getBool`/`getInt`/`getUint`). -/
inductive CoerceErr where
  | typeMismatch (raw : String) (kindName : String)
  | valueOverflow
  | unsupportedSubField (kind : Kind)
  | emptyPair
  | parserFailed (msg : String)
deriving DecidableEq, Repr

/-- Runtime content of a reflected field value.  Go slices keep a separate
backing capacity (`cap`) next to their elements; a nil slice and a slice
value are distinct (`reflect.Value.IsNil`).  Go maps are modelled as
association lists with pairwise distinct keys, which is how `SetMapIndex`
maintains them; a nil map is identified with the empty map, the only
observable difference in flag.go being an allocation. -/
inductive Value where
  | boolV (b : Bool)
  | strV (s : String)
  | intV (n : Int)
  | uintV (n : Nat)
  | nilSliceV
  | sliceV (cp : Nat) (elems : List Value)
  | mapV (entries : List (Value × Value))

mutual

/-- Structural equality on runtime values, used for Go map-key comparison
(`SetMapIndex` replaces the entry whose key compares equal). -/
def Value.beq : Value → Value → Bool
  | .boolV a, .boolV b => a == b
  | .strV a, .strV b => a == b
  | .intV a, .intV b => a == b
  | .uintV a, .uintV b => a == b
  | .nilSliceV, .nilSliceV => true
  | .sliceV c1 l1, .sliceV c2 l2 => c1 == c2 && Value.beqList l1 l2
  | .mapV l1, .mapV l2 => Value.beqPairs l1 l2
  | _, _ => false

/-- Elementwise `Value.beq` on lists. -/
def Value.beqList : List Value → List Value → Bool
  | [], [] => true
  | a :: as1, b :: bs1 => Value.beq a b && Value.beqList as1 bs1
  | _, _ => false

/-- Pairwise `Value.beq` on entry lists. -/
def Value.beqPairs : List (Value × Value) → List (Value × Value) → Bool
  | [], [] => true
  | (k1, v1) :: as1, (k2, v2) :: bs1 =>
    Value.beq k1 k2 && Value.beq v1 v2 && Value.beqPairs as1 bs1
  | _, _ => false

end

/-- The zero value of each kind (`reflect.Zero`): false, empty string, 0,
nil slice, nil map. -/
def zeroValue : Kind → Value
  | .bool => .boolV false
  | .string => .strV ""
  | .int | .int8 | .int16 | .int32 | .int64 => .intV 0
  | .uint | .uint8 | .uint16 | .uint32 | .uint64 => .uintV 0
  | .slice _ => .nilSliceV
  | .map _ _ => .mapV []

/-- Accumulator loop for `parseDigits`. -/
def parseDigitsAux : List Char → Nat → Option Nat
  | [], acc => some acc
  | c :: rest, acc =>
    if '0' ≤ c ∧ c ≤ '9' then
      parseDigitsAux rest (acc * 10 + (c.toNat - '0'.toNat))
    else
      none

/-- Decimal digit run: `some n` when the character list is nonempty and all
base-10 digits, with `n` its value; `none` otherwise.  This is the digit
loop shared by Go's `strconv.ParseInt`/`ParseUint` at base 10. -/
def parseDigits : List Char → Option Nat
  | [] => none
  | cs => parseDigitsAux cs 0

/-- Go `strconv.ParseUint(s, 10, 64)`: no sign permitted, base-10 digits
only, result must fit in an unsigned 64-bit word; `none` covers both the
syntax and the range error (the caller `getUint` does not distinguish
them). -/
def goParseUint (s : String) : Option Nat :=
  match parseDigits s.data with
  | none => none
  | some n => if n ≤ 2 ^ 64 - 1 then some n else none

/-- The signed 64-bit range check of `strconv.ParseInt`. -/
def signedResult (v : Int) : Option Int :=
  if -(2 ^ 63) ≤ v ∧ v ≤ 2 ^ 63 - 1 then some v else none

/-- Go `strconv.ParseInt(s, 10, 64)`: optional single leading sign, base-10
digits, result must fit in a signed 64-bit word; `none` covers both the
syntax and the range error. -/
def goParseInt (s : String) : Option Int :=
  match s.data with
  | [] => none
  | c :: rest =>
    match parseDigits (if c = '-' ∨ c = '+' then rest else c :: rest) with
    | none => none
    | some n => signedResult (if c == '-' then -(n : Int) else (n : Int))

/-- `getBool` of flag.go: the fixed truthy and falsy strings, then
`strconv.Atoi` (i.e. `ParseInt` at platform width, 64 bits here) with
non-zero mapping to true; otherwise the bool type-mismatch error. -/
def getBool (s : String) : Except CoerceErr Bool :=
  if s = "true" ∨ s = "yes" ∨ s = "y" ∨ s = "" then
    .ok true
  else if s = "false" ∨ s = "none" ∨ s = "no" ∨ s = "not" ∨ s = "n" then
    .ok false
  else
    match goParseInt s with
    | none => .error (.typeMismatch s "bool")
    | some i => .ok (decide (i ≠ 0))

/-- `getInt` of flag.go: `strconv.ParseInt(s, 10, 64)`, any failure mapped
to the int type-mismatch error. -/
def getInt (s : String) : Except CoerceErr Int :=
  match goParseInt s with
  | none => .error (.typeMismatch s "int")
  | some i => .ok i

/-- `getUint` of flag.go: `strconv.ParseUint(s, 10, 64)`, any failure
mapped to the uint type-mismatch error. -/
def getUint (s : String) : Except CoerceErr Nat :=
  match goParseUint s with
  | none => .error (.typeMismatch s "uint")
  | some i => .ok i

/-- `minmaxIntCheck` of flag.go: range check of a parsed signed 64-bit
value against the declared signed sub-kind (the `Int`/`Int64` arm compares
against the full 64-bit bounds and cannot fail on a parsed value; kinds
outside the listed ones fall through to true exactly as the Go switch
does). -/
def minmaxIntCheck (kind : Kind) (v : Int) : Bool :=
  match kind with
  | .int | .int64 => decide (-(2 ^ 63) ≤ v ∧ v ≤ 2 ^ 63 - 1)
  | .int8 => decide (-(2 ^ 7) ≤ v ∧ v ≤ 2 ^ 7 - 1)
  | .int16 => decide (-(2 ^ 15) ≤ v ∧ v ≤ 2 ^ 15 - 1)
  | .int32 => decide (-(2 ^ 31) ≤ v ∧ v ≤ 2 ^ 31 - 1)
  | _ => true

/-- `minmaxUintCheck` of flag.go: range check of a parsed unsigned 64-bit
value against the declared unsigned sub-kind. -/
def minmaxUintCheck (kind : Kind) (v : Nat) : Bool :=
  match kind with
  | .uint | .uint64 => decide (v ≤ 2 ^ 64 - 1)
  | .uint8 => decide (v ≤ 2 ^ 8 - 1)
  | .uint16 => decide (v ≤ 2 ^ 16 - 1)
  | .uint32 => decide (v ≤ 2 ^ 32 - 1)
  | _ => true

/-- `strings.Index(s, "=")` followed by the two slicings: the characters
strictly before the first `=` and those strictly after it, or `none` when
`=` does not occur. -/
def splitEq : List Char → Option (List Char × List Char)
  | [] => none
  | c :: rest =>
    if c = '=' then some ([], rest)
    else (splitEq rest).map fun p => (c :: p.1, p.2)

/-- `splitKeyVal` of flag.go: empty raw value is the empty-pair error;
otherwise split at the first `=`, a missing `=` giving the whole string as
key and the empty string as value. -/
def splitKeyVal (s : String) : Except CoerceErr (String × String) :=
  if s = "" then
    .error .emptyPair
  else
    match splitEq s.data with
    | none => .ok (s, "")
    | some (k, rest) => .ok (String.mk k, String.mk rest)

/-- Go map assignment (`reflect.Value.SetMapIndex`): replace the entry
whose key compares equal, else add a new entry. -/
def mapSet : List (Value × Value) → Value → Value → List (Value × Value)
  | [], k, v => [(k, v)]
  | (k0, v0) :: rest, k, v =>
    if Value.beq k0 k then (k0, v) :: rest else (k0, v0) :: mapSet rest k v

/-- Go map lookup on the association-list model. -/
def mapLookup (entries : List (Value × Value)) (k : Value) : Option Value :=
  (entries.find? fun e => Value.beq e.1 k).map (·.2)

/-- A registered custom parser, bound at creation to the target field: it
receives the raw string and yields the new field content or its own error
verbatim (`tag.parserCreator(...).Parse(s)` in flag.go). -/
def ParserFn : Type := String → Value × Option CoerceErr

/-- `setWithProperType` of flag.go.  The in-place mutation of the reflected
target becomes a returned pair `(new value, error?)`: on an error the first
component is the content the target holds afterwards (scalar arms leave the
target untouched on failure; the slice arm has already grown the slice by a
zero element before the element coercion runs; the map arm has already
allocated a nil map).  The `parser` argument is `fl.tag.parserCreator` of
the owning flag — it is checked first and supersedes every built-in kind,
and the recursive slice/map element calls pass the same (necessarily
absent) parser, as the Go code passes the same `fl`. -/
def setWithProperType (parser : Option ParserFn) (typ : Kind) (val : Value)
    (s : String) (isSubField : Bool) : Value × Option CoerceErr :=
  match parser with
  | some p => p s
  | none =>
    match typ with
    | .bool =>
      match getBool s with
      | .ok b => (.boolV b, none)
      | .error e => (val, some e)
    | .string => (.strV s, none)
    | .int | .int8 | .int16 | .int32 | .int64 =>
      match getInt s with
      | .ok v =>
        if minmaxIntCheck typ v then (.intV v, none)
        else (val, some .valueOverflow)
      | .error e => (val, some e)
    | .uint | .uint8 | .uint16 | .uint32 | .uint64 =>
      match getUint s with
      | .ok v =>
        if minmaxUintCheck typ v then (.uintV v, none)
        else (val, some .valueOverflow)
      | .error e => (val, some e)
    | .slice elemK =>
      if isSubField then
        (val, some (.unsupportedSubField (.slice elemK)))
      else
        -- a nil slice is replaced by reflect.MakeSlice(typ, 0, 4)
        let cur : Nat × List Value :=
          match val with
          | .sliceV cp es => (cp, es)
          | _ => (4, [])
        let index := cur.2.length
        let sliceCap := cur.1
        let newCap := if index + 1 ≤ sliceCap then sliceCap else index + sliceCap / 2 + 1
        -- the newly exposed slot starts as the element kind's zero value
        let elem := setWithProperType none elemK (zeroValue elemK) s true
        (.sliceV newCap (cur.2 ++ [elem.1]), elem.2)
    | .map keyK valK =>
      if isSubField then
        (val, some (.unsupportedSubField (.map keyK valK)))
      else
        match splitKeyVal s with
        | .error e => (val, some e)
        | .ok kv =>
          -- a nil map has been replaced by reflect.MakeMap(typ) at this point
          let entries : List (Value × Value) :=
            match val with
            | .mapV es => es
            | _ => []
          let key := setWithProperType none keyK (zeroValue keyK) kv.1 true
          match key.2 with
          | some e => (.mapV entries, some e)
          | none =>
            let v := setWithProperType none valK (zeroValue valK) kv.2 true
            match v.2 with
            | some e => (.mapV entries, some e)
            | none => (.mapV (mapSet entries key.1 v.1), none)

/-- The single syntax error of `parseExpression` in flag.go
(`unexpected end after $`). -/
inductive PEErr where
  | malformedExpression
deriving DecidableEq, Repr

/-- `isWordByte` of flag.go: ASCII letter, digit or underscore. -/
def isWordByte (b : Char) : Bool :=
  ('a' ≤ b && b ≤ 'z') ||
    ('A' ≤ b && b ≤ 'Z') ||
    ('0' ≤ b && b ≤ '9') ||
    b = '_'

/-- The `writeEnv` closure of `parseExpression`: an empty variable name is
the malformed-expression error; otherwise look the name up in the
environment (`os.Getenv`, here the explicit `env` parameter, which returns
`""` for unset variables), substituting `"0"` when the value is empty and
the target is numeric.  Go's byte buffers are modelled as `List Char`. -/
def writeEnv (env : String → String) (isNumber : Bool) (envName : List Char) :
    Except PEErr (List Char) :=
  if envName = [] then
    .error .malformedExpression
  else
    let e := (env (String.mk envName)).data
    .ok (if e.isEmpty && isNumber then ['0'] else e)

/-- The scanning loop of `parseExpression` in flag.go, one recursive call
per loop iteration.  Arguments: remaining input bytes, the `expr` output
buffer, the `escaping` flag and the `envvar` name buffer.  Go's
`i+1 == len(src)` end-of-input tests become tests on the remaining tail. -/
def peRun (env : String → String) (isNumber : Bool) :
    List Char → List Char → Bool → List Char → Except PEErr (List Char)
  | [], ex, _, _ => .ok ex
  | b :: rest, ex, escaping, envvar =>
    if b = '$' then
      if escaping && envvar.isEmpty then
        peRun env isNumber rest (ex ++ ['$']) false envvar
      else if rest.isEmpty then
        .error .malformedExpression
      else
        peRun env isNumber rest ex true []
    else if escaping then
      if isWordByte b then
        if rest.isEmpty then
          match writeEnv env isNumber (envvar ++ [b]) with
          | .error e => .error e
          | .ok sub => .ok (ex ++ sub)
        else
          peRun env isNumber rest ex escaping (envvar ++ [b])
      else
        match writeEnv env isNumber envvar with
        | .error e => .error e
        | .ok sub => peRun env isNumber rest (ex ++ sub ++ [b]) false []
    else
      peRun env isNumber rest (ex ++ [b]) escaping envvar

/-- `parseExpression` of flag.go, with `os.Getenv` as the explicit `env`
parameter. -/
def parseExpression (env : String → String) (s : String) (isNumber : Bool) :
    Except PEErr String :=
  (peRun env isNumber s.data [] false []).map String.mk

/-- Scanner mode for the reference-level description of `parseExpression`:
outside any reference, right after an escape byte, or inside a variable
name accumulated in `acc`. -/
inductive SubMode where
  | plain
  | esc
  | run (acc : List Char)

/-- The value substituted for one variable reference: the environment value
of the name, with `"0"` replacing an empty value when the target is
numeric. -/
def substVal (env : String → String) (isNumber : Bool) (name : List Char) :
    List Char :=
  let e := (env (String.mk name)).data
  if e.isEmpty && isNumber then ['0'] else e

/-- Reference-level description of the `parseExpression` scanner, recursing
once per remaining byte: literal bytes are copied; `$$` is a literal `$`; a
`$` followed by a word run starts a reference, which is substituted when a
non-word byte other than `$` or the end of input ends it, and *discarded*
when a further `$` directly follows it; a `$` at end of input or followed
by a non-word byte is the malformed-expression error. -/
def substituteAux (env : String → String) (isNumber : Bool) :
    SubMode → List Char → Except PEErr (List Char)
  | .plain, [] => .ok []
  | .plain, c :: rest =>
    if c = '$' then substituteAux env isNumber .esc rest
    else (substituteAux env isNumber .plain rest).map (c :: ·)
  | .esc, [] => .error .malformedExpression
  | .esc, c :: rest =>
    if c = '$' then (substituteAux env isNumber .plain rest).map ('$' :: ·)
    else if isWordByte c then substituteAux env isNumber (.run [c]) rest
    else .error .malformedExpression
  | .run acc, [] => .ok (substVal env isNumber acc)
  | .run acc, c :: rest =>
    if c = '$' then substituteAux env isNumber .esc rest
    else if isWordByte c then substituteAux env isNumber (.run (acc ++ [c])) rest
    else
      (substituteAux env isNumber .plain rest).map
        fun t => substVal env isNumber acc ++ c :: t

/-- Whole-string reference-level substitution: `substituteAux` started in
plain mode. -/
def substituteSpec (env : String → String) (isNumber : Bool) (s : String) :
    Except PEErr String :=
  (substituteAux env isNumber .plain s.data).map String.mk

/-- The fields of the external `tagProperty` record used by flag.go
(`prompt`, `isPassword`, `required`, `defaultValue`, `parserCreator`; the
name lists and usage text only feed the usage renderer, which no claim
touches).  `parserCreator` is `none` when the tag declares no
parser-constructor. -/
structure TagProperty where
  prompt : String
  isPassword : Bool
  required : Bool
  defaultValue : String
  parserCreator : Option ParserFn

/-- The `flag` struct of flag.go: the declared kind of the bound field, the
field's current content, the assigned/explicitly-set state bits, the tag
copy, the actual flag name last used, the delayed-coercion marker and the
pending last raw value. -/
structure Flag where
  kind : Kind
  value : Value
  isAssigned : Bool
  isSet : Bool
  tag : TagProperty
  actualFlagName : String
  isNeedDelaySet : Bool
  lastValue : String

/-- `flag.isBoolean`. -/
def Flag.isBoolean (fl : Flag) : Bool :=
  fl.kind = .bool

/-- `flag.isInteger`: the signed and unsigned integer kinds. -/
def Flag.isInteger (fl : Flag) : Bool :=
  match fl.kind with
  | .int | .int8 | .int16 | .int32 | .int64
  | .uint | .uint8 | .uint16 | .uint32 | .uint64 => true
  | _ => false

/-- `flag.setDefault` of flag.go: mark assigned; a delayed-coercion field
only stores the raw value, otherwise coerce immediately.  The returned pair
is (the flag afterwards, the coercion error if any). -/
def Flag.setDefault (fl : Flag) (s : String) : Flag × Option CoerceErr :=
  if fl.isNeedDelaySet then
    ({ fl with isAssigned := true, lastValue := s }, none)
  else
    let r := setWithProperType fl.tag.parserCreator fl.kind fl.value s false
    ({ fl with isAssigned := true, value := r.1 }, r.2)

/-- `flag.set` of flag.go: mark explicitly set and assigned, record the
actual flag name; a delayed-coercion field only stores the raw value,
otherwise coerce immediately. -/
def Flag.set (fl : Flag) (actualFlagName s : String) : Flag × Option CoerceErr :=
  if fl.isNeedDelaySet then
    ({ fl with isSet := true, isAssigned := true,
               actualFlagName := actualFlagName, lastValue := s }, none)
  else
    let r := setWithProperType fl.tag.parserCreator fl.kind fl.value s false
    ({ fl with isSet := true, isAssigned := true,
               actualFlagName := actualFlagName, value := r.1 }, r.2)

/-- Construction-time errors of `newFlag`/`flag.init` (a non-writable
field, a malformed default expression, a failed arithmetic evaluation, or a
failed coercion of the resolved default). -/
inductive InitErr where
  | fieldNotWritable
  | malformedExpression
  | evalFailed
  | coerceFailed (e : CoerceErr)

/-- `reflect.DeepEqual(reflect.Zero(typ).Interface(), value.Interface())`
for a well-typed field content: the content is the kind's zero value. -/
def isZeroValue : Kind → Value → Bool
  | .bool, .boolV b => b = false
  | .string, .strV s => s = ""
  | .int, .intV n | .int8, .intV n | .int16, .intV n
  | .int32, .intV n | .int64, .intV n => n = 0
  | .uint, .uintV n | .uint8, .uintV n | .uint16, .uintV n
  | .uint32, .uintV n | .uint64, .uintV n => n = 0
  | .slice _, .nilSliceV => true
  | .map _ _, .mapV es => es.isEmpty
  | _, _ => false

/-- The final step of `flag.init`: when defaulting is not suppressed, the
tag declares a default and the field still holds its zero value, apply the
resolved default through `setDefault`. -/
def flagInitApply (fl : Flag) (dontSetValue : Bool) (dft : String) :
    Except InitErr Flag :=
  if !dontSetValue && fl.tag.defaultValue != "" &&
      isZeroValue fl.kind fl.value then
    match fl.setDefault dft with
    | (fl1, none) => .ok fl1
    | (_, some e) => .error (.coerceFailed e)
  else
    .ok fl

/-- `flag.init` of flag.go: resolve the default-value expression; for a
numeric field evaluate it arithmetically (the external `expr.Eval`
collaborator, here the abstract `evalNum` parameter restricted to the
integer kinds the claims exercise, its result formatted with `%d`) and
apply the result through `flagInitApply`. -/
def flagInit (env : String → String) (evalNum : String → Option Int)
    (fl : Flag) (dontSetValue : Bool) : Except InitErr Flag :=
  match parseExpression env fl.tag.defaultValue fl.isInteger with
  | .error _ => .error .malformedExpression
  | .ok dft0 =>
    if fl.isInteger then
      match evalNum dft0 with
      | none => .error .evalFailed
      | some v => flagInitApply fl dontSetValue (toString v)
    else
      flagInitApply fl dontSetValue dft0

/-- Is the kind `reflect.Slice`? -/
def Kind.isSliceKind : Kind → Bool
  | .slice _ => true
  | _ => false

/-- Is the kind `reflect.Map`? -/
def Kind.isMapKind : Kind → Bool
  | .map _ _ => true
  | _ => false

/-- `newFlag` of flag.go: refuse a non-writable field (`CanSet`, here the
explicit `canSet` parameter), compute the delayed-coercion marker — a
declared parser-constructor, or a kind that is neither slice nor map — and
run `flag.init`. -/
def newFlag (env : String → String) (evalNum : String → Option Int)
    (kind : Kind) (value : Value) (canSet : Bool) (tag : TagProperty)
    (dontSetValue : Bool) : Except InitErr Flag :=
  if !canSet then
    .error .fieldNotWritable
  else
    let fl : Flag :=
      { kind := kind, value := value, isAssigned := false, isSet := false,
        tag := tag, actualFlagName := "",
        isNeedDelaySet := tag.parserCreator.isSome ||
          (!kind.isSliceKind && !kind.isMapKind),
        lastValue := "" }
    flagInit env evalNum fl dontSetValue

/-- Modelled from the spec: the delayed-coercion consumption point (the
spec's "performs `coerce` exactly once, at the latest point before the
value is consumed, using the *last* raw value supplied") lives outside
flag.go, in repository code not under src/; it runs `setWithProperType` on
the stored last raw value. -/
def Flag.finalize (fl : Flag) : Value × Option CoerceErr :=
  setWithProperType fl.tag.parserCreator fl.kind fl.value fl.lastValue false

/-- Repeated explicit occurrences `-f x -f y ...`: `flag.set` applied once
per raw value, the actual flag name being the raw occurrence's spelling as
resolved by the caller (its value is irrelevant to the claims; the raw
value doubles for it here). -/
def Flag.setAll (fl : Flag) (raws : List String) : Flag :=
  raws.foldl (fun f s => (f.set s s).1) fl

/-- The blocking error of a prompt read (`prompt.Password` etc. failing). -/
inductive PromptErr where
  | ioError
deriving DecidableEq, Repr

/-- The interactive prompt collaborator (`github.com/Bowery/prompt`):
masked read, yes/no read, read with pre-filled default, and plain
(required or optional) read, each taking the prompt prefix. -/
structure Prompter where
  password : String → Except PromptErr String
  ask : String → Except PromptErr Bool
  basicDefault : String → String → Except PromptErr String
  basic : String → Bool → Except PromptErr String

/-- One iteration of `flagSet.readPrompt` in flag.go for a single flag:
skip a flag that is assigned or has no prompt text; a password field reads
a masked line and applies it through `flag.set` only when non-empty; a
boolean field reads a yes/no answer and writes it directly into the value
(`fl.value.SetBool`); a field with a default expression reads with that
default pre-filled and applies through `flag.set`; otherwise a plain read
applied through `flag.set`.  The error of `flag.set` itself is discarded,
as in the Go code; only the read error is surfaced. -/
def readPromptFlag (p : Prompter) (fl : Flag) : Flag × Option PromptErr :=
  if fl.isAssigned || fl.tag.prompt == "" then
    (fl, none)
  else
    if fl.tag.isPassword then
      match p.password (fl.tag.prompt ++ ": ") with
      | .error e => (fl, some e)
      | .ok data => if data != "" then ((fl.set data data).1, none) else (fl, none)
    else if fl.isBoolean then
      match p.ask (fl.tag.prompt ++ ": ") with
      | .error e => (fl, some e)
      | .ok yes => ({ fl with value := .boolV yes }, none)
    else if fl.tag.defaultValue != "" then
      match p.basicDefault (fl.tag.prompt ++ ": ") fl.tag.defaultValue with
      | .error e => (fl, some e)
      | .ok data => ((fl.set data data).1, none)
    else
      match p.basic (fl.tag.prompt ++ ": ") fl.tag.required with
      | .error e => (fl, some e)
      | .ok data => ((fl.set data data).1, none)

/-- `flagSet.readPrompt` over the flag list: strictly sequential and
fail-fast — the first read error stops the remaining prompts. -/
def readPromptAll (p : Prompter) : List Flag → List Flag × Option PromptErr
  | [] => ([], none)
  | fl :: rest =>
    match readPromptFlag p fl with
    | (fl1, some e) => (fl1 :: rest, some e)
    | (fl1, none) =>
      let r := readPromptAll p rest
      (fl1 :: r.1, r.2)

/-- A tag with no prompt, no default and no custom parser. -/
def tagPlain : TagProperty :=
  { prompt := "", isPassword := false, required := false, defaultValue := "",
    parserCreator := none }

/-- A freshly bound map[string]string field holding the given entries. -/
def mkMapFlag (entries : List (Value × Value)) : Flag :=
  { kind := .map .string .string, value := .mapV entries, isAssigned := false,
    isSet := false, tag := tagPlain, actualFlagName := "",
    isNeedDelaySet := false, lastValue := "" }

/-- A freshly bound []string field (nil slice, as at bind time). -/
def mkStrSliceFlag : Flag :=
  { kind := .slice .string, value := .nilSliceV, isAssigned := false,
    isSet := false, tag := tagPlain, actualFlagName := "",
    isNeedDelaySet := false, lastValue := "" }

/-- A freshly bound delayed-coercion string field (scalar kind, no parser:
`isNeedDelaySet` holds by the kind test of `newFlag`). -/
def mkDelayedStrFlag : Flag :=
  { kind := .string, value := .strV "", isAssigned := false,
    isSet := false, tag := tagPlain, actualFlagName := "",
    isNeedDelaySet := true, lastValue := "" }

/-- The elements stored in a slice value (nil slice: none yet). -/
def sliceElems : Value → List Value
  | .sliceV _ es => es
  | _ => []

/-- A prompting flag: unassigned string field with prompt text and no
default. -/
def mkPromptFlag : Flag :=
  { kind := .string, value := .strV "", isAssigned := false, isSet := false,
    tag := { prompt := "name", isPassword := false, required := false,
             defaultValue := "", parserCreator := none },
    actualFlagName := "", isNeedDelaySet := true, lastValue := "" }

/-- A prompt collaborator whose reads all succeed with fixed answers. -/
def promptConst : Prompter :=
  { password := fun _ => .ok "pw", ask := fun _ => .ok true,
    basicDefault := fun _ _ => .ok "dflt", basic := fun _ _ => .ok "line" }

/-- The interactive reads given to the C8 counterexample: the masked read
succeeds with the empty string. -/
def promptEmptyPassword : Prompter :=
  { password := fun _ => .ok "", ask := fun _ => .ok true,
    basicDefault := fun _ _ => .ok "", basic := fun _ _ => .ok "" }

/-- An unassigned password field with prompt text. -/
def mkPasswordFlag : Flag :=
  { kind := .string, value := .strV "", isAssigned := false, isSet := false,
    tag := { prompt := "secret", isPassword := true, required := false,
             defaultValue := "", parserCreator := none },
    actualFlagName := "", isNeedDelaySet := true, lastValue := "" }

/-- A concrete environment for the expression-resolution counterexample:
`A` is set to `"x"` and `B` to `"y"`. -/
def envAB : String → String :=
  fun n => if n = "A" then "x" else if n = "B" then "y" else ""

section Lemmas

/-- Composing two `Except.map`s. -/
theorem exceptMapMap {α β γ : Type} (x : Except PEErr α) (f : α → β)
    (g : β → γ) : (x.map f).map g = x.map fun a => g (f a) := by
  cases x <;> rfl

/-- `Except.map` respects pointwise equal functions. -/
theorem exceptMapCongr {α β : Type} (x : Except PEErr α) (f g : α → β)
    (h : ∀ a, f a = g a) : x.map f = x.map g := by
  cases x <;> simp [Except.map, h]

/-- `writeEnv` on a nonempty variable name appends exactly the reference's
substitution value. -/
theorem writeEnv_ok (env : String → String) (isN : Bool) (nm : List Char)
    (h : nm ≠ []) : writeEnv env isN nm = .ok (substVal env isN nm) := by
  simp [writeEnv, substVal, h]

/-- `flag.set` marks the flag explicitly set and assigned and records the
actual flag name, whatever else it does. -/
theorem Flag.set_state (fl : Flag) (n s : String) :
    (fl.set n s).1.isSet = true ∧ (fl.set n s).1.isAssigned = true ∧
      (fl.set n s).1.actualFlagName = n ∧ (fl.set n s).1.kind = fl.kind ∧
      (fl.set n s).1.tag = fl.tag ∧
      (fl.set n s).1.isNeedDelaySet = fl.isNeedDelaySet := by
  unfold Flag.set
  split <;> simp_all

/-- `flag.setDefault` marks the flag assigned, leaves the explicitly-set
bit and the recorded name alone. -/
theorem Flag.setDefault_state (fl : Flag) (s : String) :
    (fl.setDefault s).1.isAssigned = true ∧
      (fl.setDefault s).1.isSet = fl.isSet ∧
      (fl.setDefault s).1.actualFlagName = fl.actualFlagName ∧
      (fl.setDefault s).1.kind = fl.kind ∧ (fl.setDefault s).1.tag = fl.tag ∧
      (fl.setDefault s).1.isNeedDelaySet = fl.isNeedDelaySet := by
  unfold Flag.setDefault
  split <;> simp_all

/-- On a delayed-coercion flag, `flag.set` only records the state bits and
the raw value. -/
theorem Flag.set_delayed (fl : Flag) (n s : String)
    (h : fl.isNeedDelaySet = true) :
    fl.set n s =
      ({ fl with isSet := true, isAssigned := true, actualFlagName := n,
                 lastValue := s }, none) := by
  unfold Flag.set
  split
  · rfl
  · simp_all

/-- On a delayed-coercion flag, `flag.setDefault` only marks assignment and
records the raw value. -/
theorem Flag.setDefault_delayed (fl : Flag) (s : String)
    (h : fl.isNeedDelaySet = true) :
    fl.setDefault s = ({ fl with isAssigned := true, lastValue := s }, none) := by
  unfold Flag.setDefault
  split
  · rfl
  · simp_all

/-- Closed form of repeated `flag.set` on a delayed-coercion flag: only the
state bits and the last raw value change, and the last occurrence wins. -/
theorem Flag.setAll_delayed (fl : Flag) (hd : fl.isNeedDelaySet = true) :
    ∀ (init : List String) (last : String),
      fl.setAll (init ++ [last]) =
        { fl with isSet := true, isAssigned := true,
                  actualFlagName := last, lastValue := last } := by
  intro init
  induction init generalizing fl with
  | nil =>
    intro last
    show (fl.set last last).1 = _
    rw [Flag.set_delayed fl last last hd]
  | cons r rest ih =>
    intro last
    show Flag.setAll ((fl.set r r).1) (rest ++ [last]) = _
    rw [Flag.set_delayed fl r r hd]
    exact ih { fl with isSet := true, isAssigned := true, actualFlagName := r,
                       lastValue := r } hd last

/-- `flagInitApply` preserves every flag attribute except the assignment
state and the defaulted content. -/
theorem flagInitApply_ok_state (fl : Flag) (d : Bool) (dft : String)
    (fl1 : Flag) (h : flagInitApply fl d dft = .ok fl1) :
    fl1.isNeedDelaySet = fl.isNeedDelaySet ∧ fl1.isSet = fl.isSet ∧
      fl1.kind = fl.kind ∧ fl1.tag = fl.tag := by
  unfold flagInitApply at h
  split at h
  · split at h
    · rename_i fl2 heq
      cases h
      have hs := Flag.setDefault_state fl dft
      rw [heq] at hs
      exact ⟨hs.2.2.2.2.2, hs.2.1, hs.2.2.2.1, hs.2.2.2.2.1⟩
    · cases h
  · cases h
    exact ⟨rfl, rfl, rfl, rfl⟩

/-- `flag.init` preserves the delayed-coercion marker, the explicitly-set
bit, the kind and the tag. -/
theorem flagInit_ok_state (env : String → String) (ev : String → Option Int)
    (fl : Flag) (d : Bool) (fl1 : Flag)
    (h : flagInit env ev fl d = .ok fl1) :
    fl1.isNeedDelaySet = fl.isNeedDelaySet ∧ fl1.isSet = fl.isSet ∧
      fl1.kind = fl.kind ∧ fl1.tag = fl.tag := by
  unfold flagInit at h
  split at h
  · cases h
  · split at h
    · split at h
      · cases h
      · exact flagInitApply_ok_state _ _ _ _ h
    · exact flagInitApply_ok_state _ _ _ _ h

/-- A value returned by the sign/range step is within the signed 64-bit
range. -/
theorem signedResult_some (w v : Int) (h : signedResult w = some v) :
    -(2 ^ 63) ≤ v ∧ v ≤ 2 ^ 63 - 1 := by
  unfold signedResult at h
  split at h
  · cases h; assumption
  · cases h

/-- Every value accepted by the 64-bit signed parse lies in the signed
64-bit range. -/
theorem goParseInt_range (s : String) (v : Int) (h : goParseInt s = some v) :
    -(2 ^ 63) ≤ v ∧ v ≤ 2 ^ 63 - 1 := by
  unfold goParseInt at h
  split at h
  · cases h
  · split at h
    · cases h
    · exact signedResult_some _ _ h

/-- Every value accepted by the 64-bit unsigned parse lies in the unsigned
64-bit range. -/
theorem goParseUint_range (s : String) (n : Nat) (h : goParseUint s = some n) :
    n ≤ 2 ^ 64 - 1 := by
  unfold goParseUint at h
  split at h
  · cases h
  · split at h
    · cases h; assumption
    · cases h

/-- After `flag.set` the explicitly-set bit holds. -/
theorem Flag.set_fst_isSet (fl : Flag) (n s : String) :
    (fl.set n s).1.isSet = true :=
  (Flag.set_state fl n s).1

/-- After `flag.set` the assigned bit holds. -/
theorem Flag.set_fst_isAssigned (fl : Flag) (n s : String) :
    (fl.set n s).1.isAssigned = true :=
  (Flag.set_state fl n s).2.1

/-- One `readPrompt` iteration leaves the flag alone, applies an explicit
`flag.set` with the read line, or (boolean branch) only overwrites the
value. -/
theorem readPromptFlag_cases (p : Prompter) (fl : Flag) :
    (readPromptFlag p fl).1 = fl ∨
      (∃ d, (readPromptFlag p fl).1 = (fl.set d d).1) ∨
      (∃ y, (readPromptFlag p fl).1 = { fl with value := .boolV y }) := by
  unfold readPromptFlag
  split
  · exact .inl rfl
  · split
    · split
      · exact .inl rfl
      · split
        · exact .inr (.inl ⟨_, rfl⟩)
        · exact .inl rfl
    · split
      · split
        · exact .inl rfl
        · exact .inr (.inr ⟨_, rfl⟩)
      · split
        · split
          · exact .inl rfl
          · exact .inr (.inl ⟨_, rfl⟩)
        · split
          · exact .inl rfl
          · exact .inr (.inl ⟨_, rfl⟩)

/-- One `readPrompt` iteration never clears the assigned bit. -/
theorem readPromptFlag_assigned_mono (p : Prompter) (fl : Flag)
    (h : fl.isAssigned = true) : (readPromptFlag p fl).1.isAssigned = true := by
  rcases readPromptFlag_cases p fl with hc | ⟨d, hc⟩ | ⟨y, hc⟩ <;> rw [hc]
  · exact h
  · exact Flag.set_fst_isAssigned fl d d
  · exact h

/-- One `readPrompt` iteration never clears the explicitly-set bit. -/
theorem readPromptFlag_set_mono (p : Prompter) (fl : Flag)
    (h : fl.isSet = true) : (readPromptFlag p fl).1.isSet = true := by
  rcases readPromptFlag_cases p fl with hc | ⟨d, hc⟩ | ⟨y, hc⟩ <;> rw [hc]
  · exact h
  · exact Flag.set_fst_isSet fl d d
  · exact h

/-- One `readPrompt` iteration preserves `isSet ⇒ isAssigned`. -/
theorem readPromptFlag_inv (p : Prompter) (fl : Flag)
    (hi : fl.isSet = true → fl.isAssigned = true) :
    (readPromptFlag p fl).1.isSet = true →
      (readPromptFlag p fl).1.isAssigned = true := by
  rcases readPromptFlag_cases p fl with hc | ⟨d, hc⟩ | ⟨y, hc⟩ <;> rw [hc]
  · exact hi
  · exact fun _ => Flag.set_fst_isAssigned fl d d
  · exact hi

/-- The whole `readPrompt` loop preserves `isSet ⇒ isAssigned` on every
flag it leaves behind. -/
theorem readPromptAll_inv (p : Prompter) :
    ∀ fls : List Flag,
      (∀ fl ∈ fls, fl.isSet = true → fl.isAssigned = true) →
      ∀ fl1 ∈ (readPromptAll p fls).1, fl1.isSet = true → fl1.isAssigned = true := by
  intro fls
  induction fls with
  | nil => intro _ fl1 hm; cases hm
  | cons fl rest ih =>
    intro hall fl1 hm
    have hhd := hall fl (List.mem_cons_self fl rest)
    have htl := fun g hg => hall g (List.mem_cons_of_mem fl hg)
    unfold readPromptAll at hm
    split at hm
    · rename_i fl2 e heq
      rcases List.mem_cons.mp hm with rfl | hmem
      · have := readPromptFlag_inv p fl hhd
        rw [heq] at this
        exact this
      · exact htl fl1 hmem
    · rename_i fl2 heq
      rcases List.mem_cons.mp hm with rfl | hmem
      · have := readPromptFlag_inv p fl hhd
        rw [heq] at this
        exact this
      · exact ih htl fl1 hmem

/-- Without `=` in the input, the first-`=` split finds nothing. -/
theorem splitEq_of_not_mem (l : List Char) (h : '=' ∉ l) :
    splitEq l = none := by
  induction l with
  | nil => rfl
  | cons c rest ih =>
    have hc : c ≠ '=' := fun hc => h (hc ▸ List.mem_cons_self c rest)
    have hr : '=' ∉ rest := fun hr => h (List.mem_cons_of_mem c hr)
    simp [splitEq, hc, ih hr]

/-- The first-`=` split cuts at the first `=`: everything before it is the
key part, everything after it the value part. -/
theorem splitEq_append (k v : List Char) (h : '=' ∉ k) :
    splitEq (k ++ '=' :: v) = some (k, v) := by
  induction k with
  | nil => simp [splitEq]
  | cons c rest ih =>
    have hc : c ≠ '=' := fun hc => h (hc ▸ List.mem_cons_self c rest)
    have hr : '=' ∉ rest := fun hr => h (List.mem_cons_of_mem c hr)
    simp [splitEq, hc, ih hr]

/-- A nonempty raw value without `=` is a bare key with the empty string
as value. -/
theorem splitKeyVal_bare (s : String) (hne : s ≠ "") (h : '=' ∉ s.data) :
    splitKeyVal s = .ok (s, "") := by
  unfold splitKeyVal
  rw [if_neg hne, splitEq_of_not_mem s.data h]

/-- A raw value `key=value` whose key part has no `=` splits on that first
`=`. -/
theorem splitKeyVal_pair (k v : String) (h : '=' ∉ k.data) :
    splitKeyVal (k ++ "=" ++ v) = .ok (k, v) := by
  have hdata : (k ++ "=" ++ v).data = k.data ++ '=' :: v.data := by
    simp [String.data_append]
  have hne : (k ++ "=" ++ v) ≠ "" := by
    intro hEq
    have : (k ++ "=" ++ v).data = [] := by rw [hEq]
    rw [hdata] at this
    simp at this
  unfold splitKeyVal
  rw [if_neg hne, hdata, splitEq_append k.data v.data h]

/-- String-key reflexivity for the map-key comparison. -/
theorem Value.beq_strV_self (a : String) :
    Value.beq (.strV a) (.strV a) = true := by
  simp [Value.beq]

/-- After `mapSet`, the map contains the written key. -/
theorem mapSet_any_self (entries : List (Value × Value)) (k v : Value)
    (hrefl : Value.beq k k = true) :
    (mapSet entries k v).any (fun e => Value.beq e.1 k) = true := by
  induction entries with
  | nil => simp [mapSet, hrefl]
  | cons e rest ih =>
    by_cases hc : Value.beq e.1 k = true
    · cases e
      simp only [mapSet] at *
      rw [if_pos hc]
      simp [hc]
    · cases e
      simp only [mapSet] at *
      rw [if_neg hc]
      simp only [List.any_cons, ih, Bool.or_true]

/-- Writing a key that is already present does not change the number of
entries. -/
theorem mapSet_length_mem (entries : List (Value × Value)) (k v : Value)
    (h : entries.any (fun e => Value.beq e.1 k) = true) :
    (mapSet entries k v).length = entries.length := by
  induction entries with
  | nil => simp at h
  | cons e rest ih =>
    cases e
    simp only [List.any_cons, Bool.or_eq_true] at h
    simp only [mapSet]
    split
    · rfl
    · rename_i hc
      rcases h with h | h
      · exact absurd h hc
      · simp [ih h]

/-- `mapSet` stores the written value under the written key. -/
theorem mapLookup_mapSet_self (entries : List (Value × Value)) (k v : Value)
    (hrefl : Value.beq k k = true) :
    mapLookup (mapSet entries k v) k = some v := by
  induction entries with
  | nil => simp [mapSet, mapLookup, List.find?, hrefl]
  | cons e rest ih =>
    cases e with
    | mk k0 v0 =>
      simp only [mapSet]
      split
      · rename_i hc
        simp [mapLookup, List.find?, hc]
      · rename_i hc
        simp only [mapLookup, List.find?] at *
        rw [Bool.of_not_eq_true hc]
        exact ih

/-- Map coercion into a string→string field: split the raw value, coerce
key and value as string sub-fields and write the entry. -/
theorem setWithProperType_map_str (entries : List (Value × Value))
    (k v : String) (hk : '=' ∉ k.data) :
    setWithProperType none (.map .string .string) (.mapV entries)
        (k ++ "=" ++ v) false =
      (.mapV (mapSet entries (.strV k) (.strV v)), none) := by
  simp only [setWithProperType, splitKeyVal_pair k v hk, Bool.false_eq_true,
    if_false]

/-- `flag.set` on a non-delayed string→string map field with raw value
`key=value`. -/
theorem Flag.set_map_str (fl : Flag) (hk : fl.kind = .map .string .string)
    (hp : fl.tag.parserCreator = none) (hd : fl.isNeedDelaySet = false)
    (entries : List (Value × Value)) (hv : fl.value = .mapV entries)
    (n k v : String) (hkk : '=' ∉ k.data) :
    fl.set n (k ++ "=" ++ v) =
      ({ fl with isSet := true, isAssigned := true, actualFlagName := n,
                 value := .mapV (mapSet entries (.strV k) (.strV v)) },
        none) := by
  unfold Flag.set
  rw [hd]
  simp only [Bool.false_eq_true, if_false]
  rw [hp, hk, hv, setWithProperType_map_str entries k v hkk]

/-- Slice coercion: one successfully coerced element is appended at the
index equal to the length before the call, growing the capacity to
`length + capacity/2 + 1` when it no longer suffices. -/
theorem setWithProperType_slice (ek : Kind) (cp : Nat) (elems : List Value)
    (s : String) (v : Value)
    (h : setWithProperType none ek (zeroValue ek) s true = (v, none)) :
    setWithProperType none (.slice ek) (.sliceV cp elems) s false =
      (.sliceV (if elems.length + 1 ≤ cp then cp
                else elems.length + cp / 2 + 1) (elems ++ [v]), none) := by
  simp only [setWithProperType, h, Bool.false_eq_true, if_false]

/-- Slice coercion starting from the nil slice: it is allocated with
length 0 and capacity 4 first. -/
theorem setWithProperType_slice_nil (ek : Kind) (s : String) (v : Value)
    (h : setWithProperType none ek (zeroValue ek) s true = (v, none)) :
    setWithProperType none (.slice ek) .nilSliceV s false =
      (.sliceV 4 [v], none) := by
  simp only [setWithProperType, h]
  rfl

/-- `flag.set` on a non-delayed []string field holding a slice value. -/
theorem Flag.set_slice_str (fl : Flag) (hk : fl.kind = .slice .string)
    (hp : fl.tag.parserCreator = none) (hd : fl.isNeedDelaySet = false)
    (cp : Nat) (elems : List Value) (hv : fl.value = .sliceV cp elems)
    (n s : String) :
    fl.set n s =
      ({ fl with isSet := true, isAssigned := true, actualFlagName := n,
                 value := .sliceV (if elems.length + 1 ≤ cp then cp
                   else elems.length + cp / 2 + 1) (elems ++ [.strV s]) },
        none) := by
  unfold Flag.set
  rw [hd]
  simp only [Bool.false_eq_true, if_false]
  rw [hp, hk, hv, setWithProperType_slice .string cp elems s (.strV s) rfl]

/-- `flag.set` on a non-delayed []string field holding the nil slice. -/
theorem Flag.set_slice_str_nil (fl : Flag) (hk : fl.kind = .slice .string)
    (hp : fl.tag.parserCreator = none) (hd : fl.isNeedDelaySet = false)
    (hv : fl.value = .nilSliceV) (n s : String) :
    fl.set n s =
      ({ fl with isSet := true, isAssigned := true, actualFlagName := n,
                 value := .sliceV 4 [.strV s] }, none) := by
  unfold Flag.set
  rw [hd]
  simp only [Bool.false_eq_true, if_false]
  rw [hp, hk, hv, setWithProperType_slice_nil .string s (.strV s) rfl]

/-- Folding `flag.set` over raw values on a []string field appends their
string values in call order. -/
theorem setAll_slice_str :
    ∀ (raws : List String) (fl : Flag), fl.kind = .slice .string →
      fl.tag.parserCreator = none → fl.isNeedDelaySet = false →
      ∀ (cp : Nat) (elems : List Value), fl.value = .sliceV cp elems →
      sliceElems (fl.setAll raws).value = elems ++ raws.map Value.strV := by
  intro raws
  induction raws with
  | nil =>
    intro fl _ _ _ cp elems hv
    simp [Flag.setAll, sliceElems, hv]
  | cons r rest ih =>
    intro fl hk hp hd cp elems hv
    show sliceElems (Flag.setAll (fl.set r r).1 rest).value = _
    rw [Flag.set_slice_str fl hk hp hd cp elems hv r r]
    dsimp only
    have ha := ih
      { fl with isSet := true, isAssigned := true, actualFlagName := r,
                value := Value.sliceV
                  (if elems.length + 1 ≤ cp then cp
                   else elems.length + cp / 2 + 1) (elems ++ [Value.strV r]) }
      hk hp hd _ _ rfl
    rw [ha]
    simp

end Lemmas

/-- C10: on a field with delayed coercion enabled (`isNeedDelaySet`),
`flag.set` and `flag.setDefault` return no error whatever the raw string
is, and only store it — the typed field content is untouched, so no
coercion error can surface at set time. -/
theorem delayedSetAlwaysSucceeds (fl : Flag) (n s : String)
    (h : fl.isNeedDelaySet = true) :
    (fl.set n s).2 = none ∧ (fl.setDefault s).2 = none ∧
      (fl.set n s).1.value = fl.value ∧ (fl.setDefault s).1.value = fl.value ∧
      (fl.set n s).1.lastValue = s ∧ (fl.setDefault s).1.lastValue = s := by
  rw [Flag.set_delayed fl n s h, Flag.setDefault_delayed fl s h]
  exact ⟨rfl, rfl, rfl, rfl, rfl, rfl⟩

/-- Witness for C10 at a concrete delayed string field and raw value. -/
theorem delayedSetAlwaysSucceeds_witness :
    (mkDelayedStrFlag.set "f" "not-a-number").2 = none ∧
      (mkDelayedStrFlag.setDefault "not-a-number").2 = none := by
  have h := delayedSetAlwaysSucceeds mkDelayedStrFlag "f" "not-a-number" rfl
  exact ⟨h.1, h.2.1⟩

/-- C4: a field uses delayed coercion exactly when it has a parser-creator
capability or its kind is neither slice nor map; on such a field `set` and
`setDefault` only store the raw value (the typed content is untouched), so
after repeated calls the pending raw value is the last one supplied, and
the single later coercion (`Flag.finalize`, modelled from the spec) runs
`setWithProperType` on exactly that last raw value. -/
theorem delayedCoercionLastWins :
    (∀ (env : String → String) (ev : String → Option Int) (kind : Kind)
        (value : Value) (tag : TagProperty) (d : Bool) (fl : Flag),
        newFlag env ev kind value true tag d = .ok fl →
        fl.isNeedDelaySet =
          (tag.parserCreator.isSome || (!kind.isSliceKind && !kind.isMapKind))) ∧
      (∀ (fl : Flag) (n s : String), fl.isNeedDelaySet = true →
        fl.set n s =
            ({ fl with isSet := true, isAssigned := true, actualFlagName := n,
                       lastValue := s }, none) ∧
          fl.setDefault s =
            ({ fl with isAssigned := true, lastValue := s }, none)) ∧
      (∀ (fl : Flag) (init : List String) (last : String),
        fl.isNeedDelaySet = true →
        (fl.setAll (init ++ [last])).lastValue = last ∧
          (fl.setAll (init ++ [last])).value = fl.value ∧
          (fl.setAll (init ++ [last])).finalize =
            setWithProperType fl.tag.parserCreator fl.kind fl.value last false) := by
  refine ⟨?_, ?_, ?_⟩
  · intro env ev kind value tag d fl h
    unfold newFlag at h
    simp only [Bool.not_true, Bool.false_eq_true, if_false] at h
    exact (flagInit_ok_state _ _ _ _ _ h).1
  · intro fl n s h
    exact ⟨Flag.set_delayed fl n s h, Flag.setDefault_delayed fl s h⟩
  · intro fl init last h
    rw [Flag.setAll_delayed fl h init last]
    exact ⟨rfl, rfl, rfl⟩

/-- Witness for C4: a scalar string field binds as delayed, and three
repeated occurrences `-f xx -f yy -f zz` leave `zz` pending, which the
deferred coercion then resolves to. -/
theorem delayedCoercionLastWins_witness :
    (newFlag (fun _ => "") (fun _ => none) .string (.strV "") true tagPlain
        false = .ok mkDelayedStrFlag ∧
      mkDelayedStrFlag.isNeedDelaySet =
        (tagPlain.parserCreator.isSome ||
          (!Kind.string.isSliceKind && !Kind.string.isMapKind))) ∧
      (mkDelayedStrFlag.setAll (["xx", "yy"] ++ ["zz"])).lastValue = "zz" ∧
      (mkDelayedStrFlag.setAll (["xx", "yy"] ++ ["zz"])).value = .strV "" ∧
      (mkDelayedStrFlag.setAll (["xx", "yy"] ++ ["zz"])).finalize =
        (.strV "zz", none) := by
  have h1 := delayedCoercionLastWins.1 (fun _ => "") (fun _ => none) .string
    (.strV "") tagPlain false mkDelayedStrFlag rfl
  have h3 := delayedCoercionLastWins.2.2 mkDelayedStrFlag ["xx", "yy"] "zz" rfl
  exact ⟨⟨rfl, h1⟩, h3.1, h3.2.1, by rw [h3.2.2]; rfl⟩

/-- C1 (amended): for every signed or unsigned integer sub-kind, a raw
string whose 64-bit parse succeeds with a value outside the sub-kind's
declared range makes `setWithProperType` fail with exactly the
value-overflow error (in particular never the type-mismatch error) and
leave the target untouched; for the full-width sub-kinds every parseable
value is inside the declared range, so no such raw string exists there. -/
theorem intFamilyOverflowIsValueOverflow :
    (∀ (s : String) (v : Int) (val : Value) (sub : Bool),
        goParseInt s = some v → (v < -(2 ^ 7) ∨ 2 ^ 7 - 1 < v) →
        setWithProperType none .int8 val s sub = (val, some .valueOverflow)) ∧
      (∀ (s : String) (v : Int) (val : Value) (sub : Bool),
        goParseInt s = some v → (v < -(2 ^ 15) ∨ 2 ^ 15 - 1 < v) →
        setWithProperType none .int16 val s sub = (val, some .valueOverflow)) ∧
      (∀ (s : String) (v : Int) (val : Value) (sub : Bool),
        goParseInt s = some v → (v < -(2 ^ 31) ∨ 2 ^ 31 - 1 < v) →
        setWithProperType none .int32 val s sub = (val, some .valueOverflow)) ∧
      (∀ (s : String) (v : Int), goParseInt s = some v →
        -(2 ^ 63) ≤ v ∧ v ≤ 2 ^ 63 - 1) ∧
      (∀ (s : String) (n : Nat) (val : Value) (sub : Bool),
        goParseUint s = some n → 2 ^ 8 - 1 < n →
        setWithProperType none .uint8 val s sub = (val, some .valueOverflow)) ∧
      (∀ (s : String) (n : Nat) (val : Value) (sub : Bool),
        goParseUint s = some n → 2 ^ 16 - 1 < n →
        setWithProperType none .uint16 val s sub = (val, some .valueOverflow)) ∧
      (∀ (s : String) (n : Nat) (val : Value) (sub : Bool),
        goParseUint s = some n → 2 ^ 32 - 1 < n →
        setWithProperType none .uint32 val s sub = (val, some .valueOverflow)) ∧
      (∀ (s : String) (n : Nat), goParseUint s = some n → n ≤ 2 ^ 64 - 1) := by
  refine ⟨?_, ?_, ?_, goParseInt_range, ?_, ?_, ?_, goParseUint_range⟩ <;>
    intro s v val sub hp hout
  case _ =>
    have hok : getInt s = .ok v := by unfold getInt; rw [hp]
    have hm : minmaxIntCheck .int8 v = false := by
      simp only [minmaxIntCheck, decide_eq_false_iff_not]
      omega
    simp only [setWithProperType, hok, hm, Bool.false_eq_true, if_false]
  case _ =>
    have hok : getInt s = .ok v := by unfold getInt; rw [hp]
    have hm : minmaxIntCheck .int16 v = false := by
      simp only [minmaxIntCheck, decide_eq_false_iff_not]
      omega
    simp only [setWithProperType, hok, hm, Bool.false_eq_true, if_false]
  case _ =>
    have hok : getInt s = .ok v := by unfold getInt; rw [hp]
    have hm : minmaxIntCheck .int32 v = false := by
      simp only [minmaxIntCheck, decide_eq_false_iff_not]
      omega
    simp only [setWithProperType, hok, hm, Bool.false_eq_true, if_false]
  case _ =>
    have hok : getUint s = .ok v := by unfold getUint; rw [hp]
    have hm : minmaxUintCheck .uint8 v = false := by
      simp only [minmaxUintCheck, decide_eq_false_iff_not]
      omega
    simp only [setWithProperType, hok, hm, Bool.false_eq_true, if_false]
  case _ =>
    have hok : getUint s = .ok v := by unfold getUint; rw [hp]
    have hm : minmaxUintCheck .uint16 v = false := by
      simp only [minmaxUintCheck, decide_eq_false_iff_not]
      omega
    simp only [setWithProperType, hok, hm, Bool.false_eq_true, if_false]
  case _ =>
    have hok : getUint s = .ok v := by unfold getUint; rw [hp]
    have hm : minmaxUintCheck .uint32 v = false := by
      simp only [minmaxUintCheck, decide_eq_false_iff_not]
      omega
    simp only [setWithProperType, hok, hm, Bool.false_eq_true, if_false]

/-- Counterexample to C1 as stated: `"99999999999999999999"` denotes a
syntactically valid decimal value far above the 8-bit unsigned range, yet
coercion into a `uint8` field fails with the type-mismatch error, not the
value-overflow error, because `strconv.ParseUint` already rejects it (its
value also exceeds the unsigned 64-bit parse range). -/
theorem uintOutOfParseRangeIsTypeMismatch :
    setWithProperType none .uint8 (.uintV 0) "99999999999999999999" false =
        (.uintV 0,
          some (.typeMismatch "99999999999999999999" "uint")) ∧
      (2 ^ 8 - 1 : Nat) < 99999999999999999999 ∧
      CoerceErr.typeMismatch "99999999999999999999" "uint" ≠
        CoerceErr.valueOverflow := by
  exact ⟨rfl, by norm_num, by decide⟩

/-- Witness for C1 (amended): 300 into an 8-bit unsigned and an 8-bit
signed field overflows. -/
theorem intFamilyOverflowIsValueOverflow_witness :
    setWithProperType none .uint8 (.uintV 0) "300" false =
        (.uintV 0, some .valueOverflow) ∧
      setWithProperType none .int8 (.intV 0) "300" false =
        (.intV 0, some .valueOverflow) := by
  have h1 := intFamilyOverflowIsValueOverflow.2.2.2.2.1 "300" 300 (.uintV 0)
    false rfl (by norm_num)
  have h2 := intFamilyOverflowIsValueOverflow.1 "300" 300 (.intV 0) false rfl
    (by norm_num)
  exact ⟨h1, h2⟩

/-- C6: boolean coercion accepts exactly the fixed truthy strings (and the
empty string) as true and the fixed falsy strings as false, otherwise
parses the raw value as an integer mapping non-zero to true, and yields
the bool type-mismatch error when that parse fails; `setWithProperType` on
a bool field forwards `getBool`'s outcome. -/
theorem boolCoercionSpec (s : String) :
    ((s = "true" ∨ s = "yes" ∨ s = "y" ∨ s = "") → getBool s = .ok true) ∧
      ((s = "false" ∨ s = "none" ∨ s = "no" ∨ s = "not" ∨ s = "n") →
        getBool s = .ok false) ∧
      (¬(s = "true" ∨ s = "yes" ∨ s = "y" ∨ s = "") →
        ¬(s = "false" ∨ s = "none" ∨ s = "no" ∨ s = "not" ∨ s = "n") →
        (∀ i : Int, goParseInt s = some i → getBool s = .ok (decide (i ≠ 0))) ∧
          (goParseInt s = none →
            getBool s = .error (.typeMismatch s "bool"))) ∧
      (∀ (val : Value) (sub : Bool) (b : Bool), getBool s = .ok b →
        setWithProperType none .bool val s sub = (.boolV b, none)) ∧
      (∀ (val : Value) (sub : Bool) (e : CoerceErr), getBool s = .error e →
        setWithProperType none .bool val s sub = (val, some e)) := by
  refine ⟨?_, ?_, ?_, ?_, ?_⟩
  · intro h
    rcases h with rfl | rfl | rfl | rfl <;> rfl
  · intro h
    rcases h with rfl | rfl | rfl | rfl | rfl <;> rfl
  · intro h1 h2
    constructor
    · intro i hp
      unfold getBool
      rw [if_neg h1, if_neg h2, hp]
    · intro hp
      unfold getBool
      rw [if_neg h1, if_neg h2, hp]
  · intro val sub b h
    simp only [setWithProperType, h]
  · intro val sub e h
    simp only [setWithProperType, h]

/-- C2: map coercion rejects the empty raw value with the empty-pair
error, splits any other raw value on the first `=` (a bare key getting the
empty string as value), and inserts/overwrites the entry for the coerced
key — so a repeated `set` with a reused key leaves the entry count
unchanged and stores the latest value under that key. -/
theorem mapCoercionSpec :
    (∀ (kk vk : Kind) (val : Value),
        setWithProperType none (.map kk vk) val "" false =
          (val, some .emptyPair)) ∧
      (∀ s : String, s ≠ "" → '=' ∉ s.data → splitKeyVal s = .ok (s, "")) ∧
      (∀ k v : String, '=' ∉ k.data →
        splitKeyVal (k ++ "=" ++ v) = .ok (k, v)) ∧
      (∀ (entries : List (Value × Value)) (k v1 v2 : String), '=' ∉ k.data →
        ((mkMapFlag entries).set "m" (k ++ "=" ++ v1)).1.value =
            .mapV (mapSet entries (.strV k) (.strV v1)) ∧
          ((mkMapFlag entries).set "m" (k ++ "=" ++ v1)).2 = none ∧
          (((mkMapFlag entries).set "m" (k ++ "=" ++ v1)).1.set "m"
              (k ++ "=" ++ v2)).1.value =
            .mapV (mapSet (mapSet entries (.strV k) (.strV v1)) (.strV k)
              (.strV v2)) ∧
          (((mkMapFlag entries).set "m" (k ++ "=" ++ v1)).1.set "m"
              (k ++ "=" ++ v2)).2 = none ∧
          (mapSet (mapSet entries (.strV k) (.strV v1)) (.strV k)
              (.strV v2)).length =
            (mapSet entries (.strV k) (.strV v1)).length ∧
          mapLookup (mapSet (mapSet entries (.strV k) (.strV v1)) (.strV k)
              (.strV v2)) (.strV k) =
            some (.strV v2)) := by
  refine ⟨fun kk vk val => rfl, splitKeyVal_bare, splitKeyVal_pair, ?_⟩
  intro entries k v1 v2 hk
  have h1 := Flag.set_map_str (mkMapFlag entries) rfl rfl rfl entries rfl
    "m" k v1 hk
  refine ⟨by rw [h1], by rw [h1], ?_, ?_, ?_, ?_⟩
  · rw [h1]
    dsimp only
    have h2 := Flag.set_map_str { mkMapFlag entries with isSet := true, isAssigned := true, actualFlagName := "m", value := Value.mapV (mapSet entries (.strV k) (.strV v1)) } rfl rfl rfl (mapSet entries (.strV k) (.strV v1)) rfl "m" k v2 hk
    rw [h2]
  · rw [h1]
    dsimp only
    have h2 := Flag.set_map_str { mkMapFlag entries with isSet := true, isAssigned := true, actualFlagName := "m", value := Value.mapV (mapSet entries (.strV k) (.strV v1)) } rfl rfl rfl (mapSet entries (.strV k) (.strV v1)) rfl "m" k v2 hk
    rw [h2]
  · exact mapSet_length_mem _ _ _
      (mapSet_any_self entries (.strV k) (.strV v1) (Value.beq_strV_self k))
  · exact mapLookup_mapSet_self _ _ _ (Value.beq_strV_self k)

/-- Witness for C2 at the spec's example scenario (`"a=1"`, then `"a=3"`
reusing key `a`). -/
theorem mapCoercionSpec_witness :
    setWithProperType none (.map .string .string) (.mapV []) "" false =
        (.mapV [], some .emptyPair) ∧
      splitKeyVal "key" = .ok ("key", "") ∧
      splitKeyVal ("a" ++ "=" ++ "b=c") = .ok ("a", "b=c") ∧
      (((mkMapFlag []).set "m" ("a" ++ "=" ++ "1")).1.set "m"
          ("a" ++ "=" ++ "3")).1.value =
        .mapV [(.strV "a", .strV "3")] ∧
      (((mkMapFlag []).set "m" ("a" ++ "=" ++ "1")).1.set "m"
          ("a" ++ "=" ++ "3")).2 = none := by
  have h := mapCoercionSpec
  have h4 := h.2.2.2 [] "a" "1" "3" (by decide)
  exact ⟨h.1 .string .string (.mapV []),
    h.2.1 "key" (by decide) (by decide),
    h.2.2.1 "a" "b=c" (by decide), h4.2.2.1, h4.2.2.2.1⟩

/-- C3: each successful `set` on a sequence field appends exactly the one
coerced element at the index equal to the length before the call (the nil
slice being first allocated with capacity 4), reallocating to capacity
`length + capacity/2 + 1` when the capacity no longer suffices; hence
after n calls on a []string field the elements are the n raw values in
call order. -/
theorem sliceCoercionAppends :
    (∀ (ek : Kind) (cp : Nat) (elems : List Value) (s : String) (v : Value),
        setWithProperType none ek (zeroValue ek) s true = (v, none) →
        setWithProperType none (.slice ek) (.sliceV cp elems) s false =
          (.sliceV (if elems.length + 1 ≤ cp then cp
                    else elems.length + cp / 2 + 1) (elems ++ [v]), none)) ∧
      (∀ (ek : Kind) (s : String) (v : Value),
        setWithProperType none ek (zeroValue ek) s true = (v, none) →
        setWithProperType none (.slice ek) .nilSliceV s false =
          (.sliceV 4 [v], none)) ∧
      (∀ raws : List String,
        sliceElems (mkStrSliceFlag.setAll raws).value =
            raws.map Value.strV ∧
          (sliceElems (mkStrSliceFlag.setAll raws).value).length =
            raws.length) := by
  refine ⟨setWithProperType_slice, setWithProperType_slice_nil, ?_⟩
  intro raws
  have he : sliceElems (mkStrSliceFlag.setAll raws).value =
      raws.map Value.strV := by
    cases raws with
    | nil => rfl
    | cons r rest =>
      show sliceElems (Flag.setAll (mkStrSliceFlag.set r r).1 rest).value = _
      rw [Flag.set_slice_str_nil mkStrSliceFlag rfl rfl rfl rfl r r]
      dsimp only
      have ha := setAll_slice_str rest { mkStrSliceFlag with isSet := true, isAssigned := true, actualFlagName := r, value := Value.sliceV 4 [Value.strV r] } rfl rfl rfl 4 [Value.strV r] rfl
      rw [ha]
      simp
  exact ⟨he, by rw [he]; exact List.length_map raws Value.strV⟩

/-- Witness for C3: growth from a full backing array and three appends in
order. -/
theorem sliceCoercionAppends_witness :
    setWithProperType none (.slice .string) (.sliceV 1 [.strV "a"]) "b"
        false =
      (.sliceV 2 [.strV "a", .strV "b"], none) ∧
      setWithProperType none (.slice .string) .nilSliceV "a" false =
        (.sliceV 4 [.strV "a"], none) ∧
      sliceElems (mkStrSliceFlag.setAll ["x", "y", "z"]).value =
        [.strV "x", .strV "y", .strV "z"] := by
  have h := sliceCoercionAppends
  have h1 := h.1 .string 1 [.strV "a"] "b" (.strV "b") rfl
  have h2 := h.2.1 .string "a" (.strV "a") rfl
  have h3 := (h.2.2 ["x", "y", "z"]).1
  exact ⟨by simpa using h1, h2, h3⟩

/-- C7: the invariant `isSet ⇒ isAssigned` holds for every flag and is
preserved by every operation: `setDefault` assigns without touching the
explicitly-set bit, `set` turns both bits on and records the actual flag
name, a freshly constructed flag has `isSet` off, and neither one
`readPrompt` iteration nor the whole loop ever turns either bit off or
breaks the implication. -/
theorem setImpliesAssignedInvariant :
    (∀ (fl : Flag) (s : String), (fl.setDefault s).1.isAssigned = true ∧
        (fl.setDefault s).1.isSet = fl.isSet) ∧
      (∀ (fl : Flag) (n s : String), (fl.set n s).1.isAssigned = true ∧
        (fl.set n s).1.isSet = true ∧ (fl.set n s).1.actualFlagName = n) ∧
      (∀ (env : String → String) (ev : String → Option Int) (kind : Kind)
          (value : Value) (canSet : Bool) (tag : TagProperty) (d : Bool)
          (fl : Flag), newFlag env ev kind value canSet tag d = .ok fl →
        fl.isSet = false ∧ (fl.isSet = true → fl.isAssigned = true)) ∧
      (∀ (p : Prompter) (fl : Flag),
        (fl.isAssigned = true → (readPromptFlag p fl).1.isAssigned = true) ∧
          (fl.isSet = true → (readPromptFlag p fl).1.isSet = true) ∧
          ((fl.isSet = true → fl.isAssigned = true) →
            (readPromptFlag p fl).1.isSet = true →
              (readPromptFlag p fl).1.isAssigned = true)) ∧
      (∀ (p : Prompter) (fls : List Flag),
        (∀ fl ∈ fls, fl.isSet = true → fl.isAssigned = true) →
        ∀ fl1 ∈ (readPromptAll p fls).1,
          fl1.isSet = true → fl1.isAssigned = true) := by
  refine ⟨?_, ?_, ?_, ?_, readPromptAll_inv⟩
  · intro fl s
    have h := Flag.setDefault_state fl s
    exact ⟨h.1, h.2.1⟩
  · intro fl n s
    have h := Flag.set_state fl n s
    exact ⟨h.2.1, h.1, h.2.2.1⟩
  · intro env ev kind value canSet tag d fl h
    unfold newFlag at h
    split at h
    · cases h
    · have hs := (flagInit_ok_state _ _ _ _ _ h).2.1
      exact ⟨hs, fun h1 => absurd (h1 ▸ hs) (by simp)⟩
  · intro p fl
    exact ⟨readPromptFlag_assigned_mono p fl, readPromptFlag_set_mono p fl,
      readPromptFlag_inv p fl⟩

/-- Witness for C7 at concrete flags, a concrete construction and a
concrete prompt round. -/
theorem setImpliesAssignedInvariant_witness :
    (mkDelayedStrFlag.setDefault "d").1.isAssigned = true ∧
      (mkDelayedStrFlag.setDefault "d").1.isSet = mkDelayedStrFlag.isSet ∧
      (mkPromptFlag.set "n" "v").1.isSet = true ∧
      (mkPromptFlag.set "n" "v").1.actualFlagName = "n" ∧
      mkDelayedStrFlag.isSet = false ∧
      (readPromptFlag promptConst mkPromptFlag).1.isAssigned = true := by
  have h := setImpliesAssignedInvariant
  have h1 := h.1 mkDelayedStrFlag "d"
  have h2 := h.2.1 mkPromptFlag "n" "v"
  have h3 := h.2.2.1 (fun _ => "") (fun _ => none) .string (.strV "") true
    tagPlain false mkDelayedStrFlag rfl
  have h4 := (h.2.2.2.1 promptConst mkPromptFlag).2.2
    (fun hs => absurd hs (by decide)) rfl
  exact ⟨h1.1, h1.2, h2.2.1, h2.2.2, h3.1, h4⟩

/-- Counterexample to C8 as stated: a masked read that succeeds with the
empty string is not applied — the flag stays unassigned and not explicitly
set after a successful read. -/
theorem passwordPromptEmptyNotApplied :
    readPromptFlag promptEmptyPassword mkPasswordFlag =
        (mkPasswordFlag, none) ∧
      mkPasswordFlag.isAssigned = false ∧ mkPasswordFlag.isSet = false ∧
      mkPasswordFlag.tag.isPassword = true ∧
      mkPasswordFlag.tag.prompt ≠ "" ∧
      promptEmptyPassword.password (mkPasswordFlag.tag.prompt ++ ": ") =
        .ok "" := by
  exact ⟨rfl, rfl, rfl, rfl, by decide, rfl⟩

/-- C8 (amended): for an unassigned password field with prompt text, a
masked read that succeeds with a *non-empty* string is applied as an
explicit value through `flag.set`, after which the field is assigned and
explicitly set; an empty successful read applies nothing. -/
theorem passwordPromptAppliesNonEmpty (p : Prompter) (fl : Flag)
    (data : String) (h1 : fl.isAssigned = false) (h2 : fl.tag.prompt ≠ "")
    (h3 : fl.tag.isPassword = true)
    (h4 : p.password (fl.tag.prompt ++ ": ") = .ok data) (h5 : data ≠ "") :
    readPromptFlag p fl = ((fl.set data data).1, none) ∧
      (readPromptFlag p fl).1.isSet = true ∧
      (readPromptFlag p fl).1.isAssigned = true := by
  have hb : (fl.tag.prompt == "") = false := beq_eq_false_iff_ne.mpr h2
  have hd : (data != "") = true := bne_iff_ne.mpr h5
  have hr : readPromptFlag p fl = ((fl.set data data).1, none) := by
    unfold readPromptFlag
    rw [h1, hb, if_neg (by simp), if_pos h3, h4]
    dsimp only
    rw [if_pos hd]
  refine ⟨hr, ?_, ?_⟩ <;> rw [hr]
  · exact Flag.set_fst_isSet fl data data
  · exact Flag.set_fst_isAssigned fl data data

/-- Witness for C8 (amended) at a concrete password field and masked
read. -/
theorem passwordPromptAppliesNonEmpty_witness :
    readPromptFlag promptConst mkPasswordFlag =
        ((mkPasswordFlag.set "pw" "pw").1, none) ∧
      (readPromptFlag promptConst mkPasswordFlag).1.isSet = true ∧
      (readPromptFlag promptConst mkPasswordFlag).1.isAssigned = true :=
  passwordPromptAppliesNonEmpty promptConst mkPasswordFlag "pw" rfl
    (by decide) rfl rfl (by decide)

/-- C9: on an unassigned, non-password boolean field with prompt text, a
successful yes/no read writes the answer straight into the value and leaves
`isAssigned`, `isSet` and the recorded actual flag name at their pre-prompt
values, so the field still reports unassigned and not explicitly set. -/
theorem booleanPromptSkipsSetState (p : Prompter) (fl : Flag) (yes : Bool)
    (h1 : fl.isAssigned = false) (h2 : fl.tag.prompt ≠ "")
    (h3 : fl.tag.isPassword = false) (h4 : fl.kind = .bool)
    (h5 : p.ask (fl.tag.prompt ++ ": ") = .ok yes) :
    readPromptFlag p fl = ({ fl with value := .boolV yes }, none) ∧
      (readPromptFlag p fl).1.isAssigned = false ∧
      (readPromptFlag p fl).1.isSet = fl.isSet ∧
      (readPromptFlag p fl).1.actualFlagName = fl.actualFlagName := by
  have hb : (fl.tag.prompt == "") = false := beq_eq_false_iff_ne.mpr h2
  have hbool : fl.isBoolean = true := by
    unfold Flag.isBoolean
    rw [h4]
    rfl
  have hr : readPromptFlag p fl = ({ fl with value := .boolV yes }, none) := by
    unfold readPromptFlag
    rw [h1, hb, if_neg (by simp), if_neg (by simp [h3]), if_pos hbool, h5]
  refine ⟨hr, ?_, ?_, ?_⟩ <;> simp [hr, h1]

/-- Witness for C9 at a concrete unassigned boolean field and a successful
yes answer. -/
theorem booleanPromptSkipsSetState_witness :
    readPromptFlag promptConst
        { kind := .bool, value := .boolV false, isAssigned := false,
          isSet := false,
          tag := { prompt := "sure", isPassword := false, required := false,
                   defaultValue := "", parserCreator := none },
          actualFlagName := "", isNeedDelaySet := true, lastValue := "" } =
      ({ kind := .bool, value := .boolV true, isAssigned := false,
         isSet := false,
         tag := { prompt := "sure", isPassword := false, required := false,
                  defaultValue := "", parserCreator := none },
         actualFlagName := "", isNeedDelaySet := true, lastValue := "" },
        none) :=
  (booleanPromptSkipsSetState promptConst _ true rfl (by decide) rfl rfl
    rfl).1

/-- Witness for C6 at concrete raw values from each regime. -/
theorem boolCoercionSpec_witness :
    getBool "yes" = .ok true ∧ getBool "not" = .ok false ∧
      getBool "7" = .ok true ∧
      getBool "maybe" = .error (.typeMismatch "maybe" "bool") ∧
      setWithProperType none .bool (.boolV false) "7" false =
        (.boolV true, none) := by
  have h1 := (boolCoercionSpec "yes").1 (by simp)
  have h2 := (boolCoercionSpec "not").2.1 (by simp)
  have h3 := ((boolCoercionSpec "7").2.2.1 (by simp) (by simp)).1 7 rfl
  have h4 := ((boolCoercionSpec "maybe").2.2.1 (by simp) (by simp)).2 rfl
  have h5 := (boolCoercionSpec "7").2.2.2.1 (.boolV false) false true
    (by exact h3)
  exact ⟨h1, h2, h3, h4, h5⟩

/-- The `parseExpression` scanning loop computes, in each of its three
reachable states (plain, right after an escape byte, inside a reference),
exactly the reference-level substitution `substituteAux`, prefixed by the
output accumulated so far. -/
theorem peRun_eq_substituteAux (env : String → String) (isN : Bool) :
    ∀ (cs ex : List Char),
      (∀ envvar, peRun env isN cs ex false envvar =
          (substituteAux env isN .plain cs).map fun t => ex ++ t) ∧
        (cs ≠ [] → peRun env isN cs ex true [] =
          (substituteAux env isN .esc cs).map fun t => ex ++ t) ∧
        (∀ acc, acc ≠ [] → cs ≠ [] → peRun env isN cs ex true acc =
          (substituteAux env isN (.run acc) cs).map fun t => ex ++ t) := by
  intro cs
  induction cs with
  | nil =>
    intro ex
    exact ⟨fun envvar => by simp [peRun, substituteAux, Except.map],
      fun h => absurd rfl h, fun acc _ h => absurd rfl h⟩
  | cons c rest ih =>
    intro ex
    refine ⟨fun envvar => ?_, fun _ => ?_, fun acc hacc _ => ?_⟩
    · -- plain mode
      by_cases hc : c = '$'
      · subst hc
        cases rest with
        | nil => simp [peRun, substituteAux, Except.map]
        | cons d ds =>
          have h2 := (ih ex).2.1 (by simp)
          simpa [peRun, substituteAux, exceptMapMap] using h2
      · have h1 := (ih (ex ++ [c])).1 envvar
        simpa [peRun, substituteAux, if_neg hc, exceptMapMap,
          List.append_assoc] using h1
    · -- escape mode, empty name buffer
      by_cases hc : c = '$'
      · subst hc
        cases rest with
        | nil => simp [peRun, substituteAux, Except.map]
        | cons d ds =>
          have h1 := (ih (ex ++ ['$'])).1 []
          simpa [peRun, substituteAux, exceptMapMap,
            List.append_assoc] using h1
      · by_cases hw : isWordByte c = true
        · cases rest with
          | nil =>
            simp [peRun, substituteAux, if_neg hc, hw,
              writeEnv_ok env isN [c] (by simp), Except.map]
          | cons d ds =>
            have h3 := (ih ex).2.2 [c] (by simp) (by simp)
            simpa [peRun, substituteAux, if_neg hc, hw] using h3
        · simp [peRun, substituteAux, if_neg hc, hw, writeEnv, Except.map]
    · -- inside a reference with nonempty name buffer
      have hae : acc.isEmpty = false := by
        cases acc with
        | nil => exact absurd rfl hacc
        | cons a as => rfl
      by_cases hc : c = '$'
      · subst hc
        cases rest with
        | nil => simp [peRun, substituteAux, hae, Except.map]
        | cons d ds =>
          have h2 := (ih ex).2.1 (by simp)
          simpa [peRun, substituteAux, hae, exceptMapMap] using h2
      · by_cases hw : isWordByte c = true
        · cases rest with
          | nil =>
            simp [peRun, substituteAux, if_neg hc, hw,
              writeEnv_ok env isN (acc ++ [c]) (by simp), Except.map]
          | cons d ds =>
            have h3 := (ih ex).2.2 (acc ++ [c]) (by simp) (by simp)
            simpa [peRun, substituteAux, if_neg hc, hw] using h3
        · have h1 := (ih (ex ++ substVal env isN acc ++ [c])).1 []
          simpa [peRun, substituteAux, if_neg hc, hw,
            writeEnv_ok env isN acc hacc, exceptMapMap,
            List.append_assoc] using h1

/-- `parseExpression` computes exactly the reference-level substitution. -/
theorem parseExpression_eq_substituteSpec (env : String → String)
    (s : String) (isN : Bool) :
    parseExpression env s isN = substituteSpec env isN s := by
  unfold parseExpression substituteSpec
  rw [((peRun_eq_substituteAux env isN) s.data []).1 [], exceptMapMap]
  exact exceptMapCongr _ _ _ fun a => by simp

/-- Escape-free text is copied in front of the rest of the substitution. -/
theorem substituteAux_plain_append (env : String → String) (isN : Bool) :
    ∀ (pre rest : List Char), '$' ∉ pre →
      substituteAux env isN .plain (pre ++ rest) =
        (substituteAux env isN .plain rest).map fun t => pre ++ t := by
  intro pre
  induction pre with
  | nil =>
    intro rest _
    rw [List.nil_append]
    cases hx : substituteAux env isN SubMode.plain rest <;> simp [hx, Except.map]
  | cons c cs ih =>
    intro rest h
    have hc : c ≠ '$' := fun hc => h (hc ▸ List.mem_cons_self c cs)
    have hcs : '$' ∉ cs := fun hm => h (List.mem_cons_of_mem c hm)
    rw [List.cons_append]
    simp only [substituteAux, if_neg hc]
    rw [ih rest hcs, exceptMapMap]
    exact exceptMapCongr _ _ _ fun a => by simp

/-- Escape-free text substitutes to itself. -/
theorem substituteAux_plain_lit (env : String → String) (isN : Bool)
    (t : List Char) (h : '$' ∉ t) :
    substituteAux env isN .plain t = .ok t := by
  have ha := substituteAux_plain_append env isN t [] h
  rw [List.append_nil] at ha
  rw [ha]
  simp [substituteAux, Except.map]

/-- A word run ending at end of input flushes the accumulated reference. -/
theorem substituteAux_run_end (env : String → String) (isN : Bool) :
    ∀ (name acc : List Char), (∀ c ∈ name, isWordByte c = true) →
      substituteAux env isN (.run acc) name =
        .ok (substVal env isN (acc ++ name)) := by
  intro name
  induction name with
  | nil =>
    intro acc _
    simp [substituteAux]
  | cons c cs ih =>
    intro acc hw
    have hwc : isWordByte c = true := hw c (List.mem_cons_self c cs)
    have hc : c ≠ '$' := by
      intro hec
      rw [hec] at hwc
      exact absurd hwc (by decide)
    have hcs : ∀ x ∈ cs, isWordByte x = true :=
      fun x hx => hw x (List.mem_cons_of_mem c hx)
    simp only [substituteAux, if_neg hc, hwc, if_true]
    rw [ih (acc ++ [c]) hcs]
    simp

/-- A word run ended by a non-word, non-escape byte substitutes the
reference and copies the separator. -/
theorem substituteAux_run_sep (env : String → String) (isN : Bool) :
    ∀ (name acc : List Char) (c : Char) (post : List Char),
      (∀ x ∈ name, isWordByte x = true) → isWordByte c = false → c ≠ '$' →
      substituteAux env isN (.run acc) (name ++ c :: post) =
        (substituteAux env isN .plain post).map
          fun t => substVal env isN (acc ++ name) ++ c :: t := by
  intro name
  induction name with
  | nil =>
    intro acc c post _ hwc hc
    simp only [List.nil_append, substituteAux, if_neg hc, hwc,
      Bool.false_eq_true, if_false]
    simp
  | cons x xs ih =>
    intro acc c post hw hwc hc
    have hwx : isWordByte x = true := hw x (List.mem_cons_self x xs)
    have hx : x ≠ '$' := by
      intro hex
      rw [hex] at hwx
      exact absurd hwx (by decide)
    have hxs : ∀ y ∈ xs, isWordByte y = true :=
      fun y hy => hw y (List.mem_cons_of_mem x hy)
    rw [List.cons_append]
    simp only [substituteAux, if_neg hx, hwx, if_true]
    rw [ih (acc ++ [x]) c post hxs hwc hc]
    simp

/-- C5 (amended): `resolve` behaves exactly as the reference-level
substitution `substituteAux`: each `$NAME` reference that ends at a
non-word byte other than the escape byte, or at end of input, is replaced
by the environment value of NAME — substituting `"0"` when that value is
unset/empty and the target is numeric, and the empty string when it is
unset/empty and the target is not — while a reference directly followed by
another escape byte is discarded rather than substituted, and a lone
trailing escape byte with no variable name started fails with the
malformed-expression error. -/
theorem expressionResolutionSpec :
    (∀ (env : String → String) (s : String) (isN : Bool),
        parseExpression env s isN = substituteSpec env isN s) ∧
      (∀ (env : String → String) (isN : Bool) (name : List Char),
        (env (String.mk name) = "" →
            substVal env isN name = if isN then ['0'] else []) ∧
          (env (String.mk name) ≠ "" →
            substVal env isN name = (env (String.mk name)).data)) ∧
      (∀ (env : String → String) (isN : Bool) (t : String), '$' ∉ t.data →
        parseExpression env (t ++ "$") isN = .error .malformedExpression) ∧
      (∀ (env : String → String) (isN : Bool) (pre name : List Char),
        '$' ∉ pre → name ≠ [] → (∀ c ∈ name, isWordByte c = true) →
        parseExpression env (String.mk (pre ++ '$' :: name)) isN =
          .ok (String.mk (pre ++ substVal env isN name))) ∧
      (∀ (env : String → String) (isN : Bool) (pre name : List Char)
          (c : Char) (post : List Char),
        '$' ∉ pre → name ≠ [] → (∀ x ∈ name, isWordByte x = true) →
        isWordByte c = false → c ≠ '$' → '$' ∉ post →
        parseExpression env (String.mk (pre ++ '$' :: (name ++ c :: post)))
            isN =
          .ok (String.mk (pre ++ (substVal env isN name ++ c :: post)))) := by
  refine ⟨parseExpression_eq_substituteSpec, ?_, ?_, ?_, ?_⟩
  · intro env isN name
    constructor
    · intro h
      unfold substVal
      rw [h]
      cases isN <;> simp
    · intro h
      have hd : (env (String.mk name)).data.isEmpty = false := by
        rcases henv : env (String.mk name) with ⟨l⟩
        cases l with
        | nil => exact absurd henv h
        | cons a as => rfl
      simp [substVal, hd]
  · intro env isN t h
    rw [parseExpression_eq_substituteSpec]
    unfold substituteSpec
    have hd : (t ++ "$").data = t.data ++ ['$'] := by
      rcases t with ⟨l⟩
      rfl
    rw [hd, substituteAux_plain_append env isN t.data ['$'] h]
    rfl
  · intro env isN pre name hpre hne hw
    rw [parseExpression_eq_substituteSpec]
    unfold substituteSpec
    show (substituteAux env isN SubMode.plain (pre ++ '$' :: name)).map
        String.mk = _
    rw [substituteAux_plain_append env isN pre ('$' :: name) hpre]
    cases name with
    | nil => exact absurd rfl hne
    | cons n0 ns =>
      have hw0 : isWordByte n0 = true := hw n0 (List.mem_cons_self n0 ns)
      have hn0 : n0 ≠ '$' := by
        intro he
        rw [he] at hw0
        exact absurd hw0 (by decide)
      have hstep : substituteAux env isN SubMode.plain ('$' :: n0 :: ns) =
          .ok (substVal env isN (n0 :: ns)) := by
        show substituteAux env isN SubMode.esc (n0 :: ns) = _
        simp only [substituteAux, if_neg hn0, hw0, if_true]
        exact substituteAux_run_end env isN ns [n0]
          fun x hx => hw x (List.mem_cons_of_mem n0 hx)
      rw [hstep]
      rfl
  · intro env isN pre name c post hpre hne hw hwc hcd hpost
    rw [parseExpression_eq_substituteSpec]
    unfold substituteSpec
    show (substituteAux env isN SubMode.plain
        (pre ++ '$' :: (name ++ c :: post))).map String.mk = _
    rw [substituteAux_plain_append env isN pre ('$' :: (name ++ c :: post))
      hpre]
    cases name with
    | nil => exact absurd rfl hne
    | cons n0 ns =>
      have hw0 : isWordByte n0 = true := hw n0 (List.mem_cons_self n0 ns)
      have hn0 : n0 ≠ '$' := by
        intro he
        rw [he] at hw0
        exact absurd hw0 (by decide)
      have hstep : substituteAux env isN SubMode.plain
          ('$' :: ((n0 :: ns) ++ c :: post)) =
          .ok (substVal env isN (n0 :: ns) ++ c :: post) := by
        show substituteAux env isN SubMode.esc (n0 :: (ns ++ c :: post)) = _
        simp only [substituteAux, if_neg hn0, hw0, if_true]
        rw [substituteAux_run_sep env isN ns [n0] c post
          (fun x hx => hw x (List.mem_cons_of_mem n0 hx)) hwc hcd]
        rw [substituteAux_plain_lit env isN post hpost]
        rfl
      rw [hstep]
      rfl

/-- Counterexample to C5 as stated: in `"$A$B"` with `A=x` and `B=y` in
the environment, the reference `$A` (a word run after the escape byte) is
*not* substituted — the whole expression resolves to `"y"`, not `"xy"`. -/
theorem droppedReferenceNotSubstituted :
    envAB "A" = "x" ∧ envAB "B" = "y" ∧
      parseExpression envAB "$A$B" false = .ok "y" ∧
      "y" ≠ "x" ++ "y" := by
  exact ⟨rfl, rfl, rfl, by decide⟩

/-- Witness for C5 (amended) at the spec's own examples. -/
theorem expressionResolutionSpec_witness :
    parseExpression (fun n => if n = "HOME" then "/x" else "") "$HOME/bin"
        false = .ok "/x/bin" ∧
      parseExpression (fun _ => "") "abc$" true =
        .error .malformedExpression ∧
      parseExpression (fun _ => "") "$MISSING" true = .ok "0" ∧
      parseExpression (fun _ => "") "$MISSING" false = .ok "" := by
  have h := expressionResolutionSpec
  refine ⟨?_, ?_, ?_, ?_⟩
  · exact h.2.2.2.2 (fun n => if n = "HOME" then "/x" else "") false []
      ['H', 'O', 'M', 'E'] '/' ['b', 'i', 'n'] (by decide) (by decide)
      (by decide) (by decide) (by decide) (by decide)
  · exact h.2.2.1 (fun _ => "") true "abc" (by decide)
  · exact h.2.2.2.1 (fun _ => "") true [] ['M', 'I', 'S', 'S', 'I', 'N', 'G']
      (by decide) (by decide) (by decide)
  · exact h.2.2.2.1 (fun _ => "") false []
      ['M', 'I', 'S', 'S', 'I', 'N', 'G'] (by decide) (by decide) (by decide)

end CliFlag
